import Mathlib

/-!
Shallow embedding of the early-payment loan engine (src/main.rs).

Monetary values (`rust_decimal::Decimal`) are embedded as `ℚ`; `round_dp(2)`
(rust_decimal's default `MidpointNearestEven` strategy) is embedded as
`round2`, banker's rounding to two decimal places.  `NaiveDate` is embedded
as `Date` with chrono-style validity for `with_month` / `with_year`.
Rust panics (u32 subtraction overflow in debug builds, `Decimal` division by
zero, `expect` on date arithmetic) are embedded as `RustResult.panic`.
-/

namespace EarlyPayment

/-- Round a rational to the nearest integer, ties to even
(rust_decimal `MidpointNearestEven`). -/
def bankersRound (x : ℚ) : ℤ :=
  if x - ⌊x⌋ < 1/2 then ⌊x⌋
  else if 1/2 < x - ⌊x⌋ then ⌊x⌋ + 1
  else if ⌊x⌋ % 2 = 0 then ⌊x⌋ else ⌊x⌋ + 1

/-- `Decimal::round_dp(2)`: banker's rounding to two decimal places. -/
def round2 (q : ℚ) : ℚ := (bankersRound (q * 100) : ℚ) / 100

/-- A rational is a whole number of cents (the shape of every 2-dp
`Decimal` amount). -/
def Cents (q : ℚ) : Prop := (q * 100).den = 1

instance (q : ℚ) : Decidable (Cents q) := by unfold Cents; infer_instance

lemma bankersRound_intCast (k : ℤ) : bankersRound (k : ℚ) = k := by
  simp [bankersRound, Int.floor_intCast]

lemma floor_le_bankersRound (x : ℚ) : ⌊x⌋ ≤ bankersRound x := by
  unfold bankersRound
  split_ifs <;> omega

lemma bankersRound_le_floor_add_one (x : ℚ) : bankersRound x ≤ ⌊x⌋ + 1 := by
  unfold bankersRound
  split_ifs <;> omega

lemma abs_bankersRound_sub_le (x : ℚ) : |(bankersRound x : ℚ) - x| ≤ 1/2 := by
  have h0 : (⌊x⌋ : ℚ) ≤ x := Int.floor_le x
  have h1 : x < (⌊x⌋ : ℚ) + 1 := Int.lt_floor_add_one x
  unfold bankersRound
  split_ifs with hlt hgt hev
  · rw [abs_le]; constructor <;> linarith
  · push_cast
    rw [abs_le]; constructor <;> linarith
  · have heq : x - (⌊x⌋ : ℚ) = 1/2 := le_antisymm (not_lt.mp hgt) (not_lt.mp hlt)
    rw [abs_le]; constructor <;> linarith
  · have heq : x - (⌊x⌋ : ℚ) = 1/2 := le_antisymm (not_lt.mp hgt) (not_lt.mp hlt)
    push_cast
    rw [abs_le]; constructor <;> linarith

lemma bankersRound_mono {x y : ℚ} (hxy : x ≤ y) :
    bankersRound x ≤ bankersRound y := by
  have hf : ⌊x⌋ ≤ ⌊y⌋ := Int.floor_le_floor hxy
  rcases lt_or_eq_of_le hf with hf | hf
  · calc bankersRound x ≤ ⌊x⌋ + 1 := bankersRound_le_floor_add_one x
      _ ≤ ⌊y⌋ := by omega
      _ ≤ bankersRound y := floor_le_bankersRound y
  · have hfq : ((⌊x⌋ : ℤ) : ℚ) = ((⌊y⌋ : ℤ) : ℚ) := by exact_mod_cast hf
    have hxy' : x - (⌊x⌋ : ℚ) ≤ y - (⌊y⌋ : ℚ) := by
      rw [hfq]
      linarith
    unfold bankersRound
    rw [hf]
    split_ifs <;> first | omega | (exfalso; linarith)

lemma bankersRound_nonneg {x : ℚ} (hx : 0 ≤ x) : 0 ≤ bankersRound x := by
  have h := bankersRound_mono (x := (0 : ℚ)) hx
  have h0 : bankersRound ((0 : ℤ) : ℚ) = 0 := bankersRound_intCast 0
  push_cast at h0
  omega

lemma round2_mono {x y : ℚ} (hxy : x ≤ y) : round2 x ≤ round2 y := by
  unfold round2
  have h := bankersRound_mono (mul_le_mul_of_nonneg_right hxy (by norm_num : (0:ℚ) ≤ 100))
  have h' : ((bankersRound (x * 100) : ℤ) : ℚ) ≤ ((bankersRound (y * 100) : ℤ) : ℚ) := by
    exact_mod_cast h
  linarith

lemma round2_nonneg {x : ℚ} (hx : 0 ≤ x) : 0 ≤ round2 x := by
  unfold round2
  have h := bankersRound_nonneg (x := x * 100) (by positivity)
  have h' : (0 : ℚ) ≤ ((bankersRound (x * 100) : ℤ) : ℚ) := by exact_mod_cast h
  linarith

lemma abs_round2_sub_le (x : ℚ) : |round2 x - x| ≤ 1/200 := by
  unfold round2
  have h := abs_bankersRound_sub_le (x * 100)
  have h2 : |((bankersRound (x * 100) : ℤ) : ℚ) / 100 - x| =
      |((bankersRound (x * 100) : ℤ) : ℚ) - x * 100| / 100 := by
    rw [← abs_of_pos (show (0:ℚ) < 100 by norm_num), ← abs_div]
    congr 1
    field_simp
    ring
  rw [h2]
  rw [div_le_iff₀ (by norm_num : (0:ℚ) < 100)]
  linarith

lemma cents_iff (q : ℚ) : Cents q ↔ ∃ k : ℤ, q * 100 = (k : ℚ) := by
  constructor
  · intro h
    refine ⟨(q * 100).num, ?_⟩
    conv_lhs => rw [← Rat.num_div_den (q * 100)]
    rw [h]
    push_cast
    ring
  · rintro ⟨k, hk⟩
    unfold Cents
    rw [hk, Rat.den_intCast]

lemma cents_round2 (q : ℚ) : Cents (round2 q) := by
  rw [cents_iff]
  refine ⟨bankersRound (q * 100), ?_⟩
  unfold round2
  field_simp

lemma round2_eq_self {q : ℚ} (h : Cents q) : round2 q = q := by
  rw [cents_iff] at h
  obtain ⟨k, hk⟩ := h
  unfold round2
  rw [hk, bankersRound_intCast]
  rw [div_eq_iff (by norm_num : (100:ℚ) ≠ 0)]
  linarith

lemma Cents.sub {a b : ℚ} (ha : Cents a) (hb : Cents b) : Cents (a - b) := by
  rw [cents_iff] at ha hb ⊢
  obtain ⟨k, hk⟩ := ha
  obtain ⟨m, hm⟩ := hb
  exact ⟨k - m, by push_cast; linarith⟩

lemma Cents.add {a b : ℚ} (ha : Cents a) (hb : Cents b) : Cents (a + b) := by
  rw [cents_iff] at ha hb ⊢
  obtain ⟨k, hk⟩ := ha
  obtain ⟨m, hm⟩ := hb
  exact ⟨k + m, by push_cast; linarith⟩

lemma round2_le_of_cents {a b : ℚ} (ha : Cents a) (hba : b ≤ a) :
    round2 b ≤ a := by
  calc round2 b ≤ round2 a := round2_mono hba
    _ = a := round2_eq_self ha

/-- `round2 q ≥ q - 1/200`. -/
lemma round2_ge (x : ℚ) : x - 1/200 ≤ round2 x := by
  have h := abs_round2_sub_le x
  rw [abs_le] at h
  linarith

lemma round2_le (x : ℚ) : round2 x ≤ x + 1/200 := by
  have h := abs_round2_sub_le x
  rw [abs_le] at h
  linarith

/-- `chrono::NaiveDate`, restricted to the fields the program touches. -/
structure Date where
  year : ℤ
  month : ℕ
  day : ℕ
  deriving DecidableEq, Repr

def isLeapYear (y : ℤ) : Prop :=
  y % 4 = 0 ∧ (y % 100 ≠ 0 ∨ y % 400 = 0)

instance (y : ℤ) : Decidable (isLeapYear y) := by
  unfold isLeapYear; infer_instance

def daysInMonth (y : ℤ) (m : ℕ) : ℕ :=
  if m = 1 ∨ m = 3 ∨ m = 5 ∨ m = 7 ∨ m = 8 ∨ m = 10 ∨ m = 12 then 31
  else if m = 4 ∨ m = 6 ∨ m = 9 ∨ m = 11 then 30
  else if m = 2 then (if isLeapYear y then 29 else 28)
  else 0

def dateValid (d : Date) : Prop :=
  1 ≤ d.month ∧ d.month ≤ 12 ∧ 1 ≤ d.day ∧ d.day ≤ daysInMonth d.year d.month

instance (d : Date) : Decidable (dateValid d) := by unfold dateValid; infer_instance

/-- `NaiveDate::with_month`: `none` when the resulting date is invalid. -/
def Date.withMonth (d : Date) (m : ℕ) : Option Date :=
  if dateValid ⟨d.year, m, d.day⟩ then some ⟨d.year, m, d.day⟩ else none

/-- `NaiveDate::with_year`: `none` when the resulting date is invalid. -/
def Date.withYear (d : Date) (y : ℤ) : Option Date :=
  if dateValid ⟨y, d.month, d.day⟩ then some ⟨y, d.month, d.day⟩ else none

/-- The date step at the bottom of `generate_schedule`'s loop:
`current_date.with_month((month0 + 1) % 12 + 1)
  .and_then(|date| date.with_year(year + (month0 + 1) / 12))`
(`month0` is the zero-based month, so `month0 + 1 = month`). -/
def nextDate (d : Date) : Option Date :=
  (d.withMonth (d.month % 12 + 1)).bind
    (fun date => date.withYear (d.year + (d.month : ℤ) / 12))

/-- Outcome of a Rust computation that can panic (`expect`, arithmetic
overflow in debug builds, `Decimal` division by zero). -/
inductive RustResult (α : Type) where
  | ok (a : α)
  | panic (msg : String)
  deriving DecidableEq, Repr

def RustResult.getOk? {α : Type} : RustResult α → Option α
  | .ok a => some a
  | .panic _ => none

def RustResult.bind {α β : Type} : RustResult α → (α → RustResult β) → RustResult β
  | .ok a, f => f a
  | .panic m, _ => .panic m

/-- Rust `u32` subtraction with debug-build semantics: panics on underflow. -/
def subU32 (a b : ℕ) : RustResult ℕ :=
  if b ≤ a then .ok (a - b) else .panic "attempt to subtract with overflow"

structure Loan where
  principal : ℚ
  annual_rate : ℚ
  done_months : ℕ
  months : ℕ
  start_date : Date
  monthly_principal_payment : ℚ
  deriving DecidableEq, Repr

structure PaymentRecord where
  period : ℕ
  interest : ℚ
  principal_payment : ℚ
  remaining_principal : ℚ
  total_payment : ℚ
  interest_rate : ℚ
  payment_date : Date
  early_payment : Option ℚ
  deriving DecidableEq, Repr

/-- `Loan::new`.  `months - done_months` is u32 subtraction (panics on
underflow in debug builds); `principal / Decimal::from(0)` panics with
"Division by zero" in rust_decimal. -/
def Loan.new (principal annual_rate : ℚ) (done_months months : ℕ)
    (start_date : Date) : RustResult Loan :=
  match subU32 months done_months with
  | .panic m => .panic m
  | .ok count =>
    if count = 0 then .panic "Division by zero"
    else .ok
      { principal := principal
        annual_rate := annual_rate
        done_months := done_months
        months := months
        start_date := start_date
        monthly_principal_payment := round2 (principal / (count : ℚ)) }

/-- The body of `generate_schedule`'s `for period in 1..=months` loop,
by recursion on the number of remaining iterations.  `i` is the loop
variable `period`, `rp` the running `remaining_principal`, `d` the running
`current_date`.  The record is pushed before the date advance, but the
`expect` panic on a failed advance still aborts the whole call. -/
def genLoop (l : Loan) (mr mpp : ℚ) :
    ℕ → ℕ → ℚ → Date → RustResult (List PaymentRecord)
  | 0, _, _, _ => .ok []
  | n + 1, i, rp, d =>
    let interest := round2 (rp * mr)
    let total_payment := round2 (mpp + interest)
    let pp := if rp < mpp then rp else mpp
    let entry : PaymentRecord :=
      { period := i + l.done_months
        interest := interest
        principal_payment := pp
        remaining_principal := rp
        total_payment := total_payment
        interest_rate := l.annual_rate
        payment_date := d
        early_payment := none }
    match nextDate d with
    | none => .panic "Failed to calculate date"
    | some d' =>
      match genLoop l mr mpp n (i + 1) (rp - pp) d' with
      | .panic m => .panic m
      | .ok rest => .ok (entry :: rest)

/-- `Loan::generate_schedule`. -/
def Loan.generate_schedule (l : Loan) : RustResult (List PaymentRecord) :=
  match subU32 l.months l.done_months with
  | .panic m => .panic m
  | .ok count =>
    genLoop l (l.annual_rate / 12 / 100) l.monthly_principal_payment
      count 1 l.principal l.start_date

/-- `Loan::adjust_rate`.  Sets `self.annual_rate`, then rewrites
`interest_rate`, `interest` and `total_payment` of every record from
1-indexed position `from_period` on (`iter_mut().skip(from_period - 1)`).
`from_period - 1` is u32 subtraction, so `from_period = 0` panics.
Note the source does not `round_dp` the new `total_payment`. -/
def Loan.adjust_rate (l : Loan) (new_rate : ℚ) (from_period : ℕ)
    (schedule : List PaymentRecord) :
    RustResult (Loan × List PaymentRecord) :=
  match subU32 from_period 1 with
  | .panic m => .panic m
  | .ok k =>
    .ok ({ l with annual_rate := new_rate },
      schedule.take k ++ (schedule.drop k).map (fun p =>
        let monthly_rate := new_rate / 12 / 100
        let interest := round2 (p.remaining_principal * monthly_rate)
        { p with
          interest_rate := new_rate
          interest := interest
          total_payment := p.principal_payment + interest }))

/-- The `shorten_term` walk of `make_early_payment` over
`&mut schedule[idx..]`: rewrites each record from the running balance `rp`,
and on the iteration whose payment brings the balance to exactly zero,
`schedule.truncate(idx)` keeps that record and discards the rest. -/
def shortenLoop : ℚ → List PaymentRecord → List PaymentRecord
  | _, [] => []
  | rp, p :: rest =>
    let monthly_rate := p.interest_rate / 12 / 100
    let interest := round2 (rp * monthly_rate)
    let pp := if rp < p.principal_payment then rp else p.principal_payment
    let p' : PaymentRecord :=
      { p with
        remaining_principal := rp
        principal_payment := pp
        interest := interest
        total_payment := round2 (pp + interest) }
    let rp' := rp - pp
    if rp' = 0 then [p'] else p' :: shortenLoop rp' rest

/-- The `!shorten_term` walk of `make_early_payment`: every record from
`idx` to the end gets the new flat installment `mpp` (capped at the
running balance); no truncation. -/
def reduceLoop (mpp : ℚ) : ℚ → List PaymentRecord → List PaymentRecord
  | _, [] => []
  | rp, p :: rest =>
    let monthly_rate := p.interest_rate / 12 / 100
    let interest := round2 (rp * monthly_rate)
    let pp := if rp < mpp then rp else mpp
    let p' : PaymentRecord :=
      { p with
        remaining_principal := rp
        principal_payment := pp
        interest := interest
        total_payment := round2 (pp + interest) }
    p' :: reduceLoop mpp (rp - pp) rest

/-- `Loan::make_early_payment`.  `period - done_months - 1` is u32
subtraction (debug-build panic on underflow); the source's subsequent
`if idx < 0 as u32 { return; }` is dead code, kept here verbatim.
The source's `if idx as usize >= schedule.len() { return; }` followed by
`schedule[idx]` indexing becomes the `Option.elim` on `schedule[idx]?`
(its `none` case is exactly the out-of-range return).  In the
reduce-installment branch, `schedule[idx].period` is read after the
`early_payment` store in the source; the store does not touch `period`,
so reading `target.period` is the same value. -/
def Loan.make_early_payment (l : Loan) (extra_payment : ℚ) (period : ℕ)
    (shorten_term : Bool) (schedule : List PaymentRecord) :
    RustResult (Loan × List PaymentRecord) :=
  ((subU32 period l.done_months).bind (fun t => subU32 t 1)).bind (fun idx =>
    if idx < 0 then .ok (l, schedule)
    else
      (schedule[idx]?).elim (.ok (l, schedule)) (fun target =>
        if round2 (target.remaining_principal - extra_payment) < 0 then
          .ok (l, schedule)
        else
          if shorten_term then
            .ok (l,
              (schedule.set idx { target with early_payment := some extra_payment }).take idx
                ++ shortenLoop (round2 (target.remaining_principal - extra_payment))
                    ((schedule.set idx { target with early_payment := some extra_payment }).drop idx))
          else
            (subU32 l.months target.period).bind (fun rem0 =>
              .ok ({ l with monthly_principal_payment :=
                      round2 (round2 (target.remaining_principal - extra_payment)
                        / ((rem0 + 1 : ℕ) : ℚ)) },
                (schedule.set idx { target with early_payment := some extra_payment }).take idx
                  ++ reduceLoop
                      (round2 (round2 (target.remaining_principal - extra_payment)
                        / ((rem0 + 1 : ℕ) : ℚ)))
                      (round2 (target.remaining_principal - extra_payment))
                      ((schedule.set idx { target with early_payment := some extra_payment }).drop idx)))))

/-- `Loan::total_interest_paid`. -/
def Loan.total_interest_paid (_l : Loan) (schedule : List PaymentRecord) : ℚ :=
  (schedule.map (fun p => p.interest)).sum

/-! ### Invariants, operation sequences, and auxiliary definitions -/

/-- Per-record part of the schedule invariant: the balance and the
principal payment are non-negative whole-cent amounts. -/
def RecInv (p : PaymentRecord) : Prop :=
  0 ≤ p.remaining_principal ∧ Cents p.remaining_principal ∧
    0 ≤ p.principal_payment ∧ Cents p.principal_payment

instance (p : PaymentRecord) : Decidable (RecInv p) := by
  unfold RecInv; infer_instance

/-- `remaining_principal` is non-increasing between consecutive records. -/
def SchedMono (s : List PaymentRecord) : Prop :=
  s.Chain' (fun a b => b.remaining_principal ≤ a.remaining_principal)

instance (s : List PaymentRecord) : Decidable (SchedMono s) := by
  unfold SchedMono; infer_instance

def SchedInv (s : List PaymentRecord) : Prop :=
  (∀ p ∈ s, RecInv p) ∧ SchedMono s

instance (s : List PaymentRecord) : Decidable (SchedInv s) := by
  unfold SchedInv; infer_instance

/-- The balance left after `n` generation periods starting from `rp`:
the pure-number shadow of `genLoop`'s running state. -/
def ratLoop (mpp : ℚ) : ℕ → ℚ → ℚ
  | 0, rp => rp
  | n + 1, rp => ratLoop mpp n (rp - (if rp < mpp then rp else mpp))

/-- Dates whose day-of-month is at most 28 stay valid under the program's
month-advance arithmetic forever. -/
def goodDay (d : Date) : Prop :=
  1 ≤ d.month ∧ d.month ≤ 12 ∧ 1 ≤ d.day ∧ d.day ≤ 28

/-- The per-record effect of `adjust_rate` on the records it touches
(new rate, recomputed interest, recomputed — unrounded — total). -/
def rateUpdate (new_rate : ℚ) (p : PaymentRecord) : PaymentRecord :=
  { p with
    interest_rate := new_rate
    interest := round2 (p.remaining_principal * (new_rate / 12 / 100))
    total_payment := p.principal_payment + round2 (p.remaining_principal * (new_rate / 12 / 100)) }

/-- A mutation request against a loan and its schedule: the two in-place
operations the program exposes after generation. -/
inductive LoanOp where
  | adjustRate (new_rate : ℚ) (from_period : ℕ)
  | earlyPayment (extra : ℚ) (period : ℕ) (shorten_term : Bool)
  deriving DecidableEq, Repr

def applyOp (st : Loan × List PaymentRecord) : LoanOp → RustResult (Loan × List PaymentRecord)
  | .adjustRate r fp => st.1.adjust_rate r fp st.2
  | .earlyPayment e per b => st.1.make_early_payment e per b st.2

def applyOps : Loan × List PaymentRecord → List LoanOp → RustResult (Loan × List PaymentRecord)
  | st, [] => .ok st
  | st, op :: ops => (applyOp st op).bind (fun st' => applyOps st' ops)

/-- The operation's extra payment, when it has one, is non-negative. -/
def OpNonneg : LoanOp → Prop
  | .adjustRate _ _ => True
  | .earlyPayment e _ _ => 0 ≤ e

instance (op : LoanOp) : Decidable (OpNonneg op) := by
  cases op <;> (unfold OpNonneg; infer_instance)

/-- Combined loan/schedule invariant carried across mutations. -/
def StInv (st : Loan × List PaymentRecord) : Prop :=
  (0 ≤ st.1.monthly_principal_payment ∧ Cents st.1.monthly_principal_payment) ∧
    SchedInv st.2

instance (st : Loan × List PaymentRecord) : Decidable (StInv st) := by
  unfold StInv; infer_instance

instance (d : Date) : Decidable (goodDay d) := by
  unfold goodDay; infer_instance

/-! ### Concrete instances used to evaluate the model -/

def exDate : Date := ⟨2024, 1, 1⟩

/-- A one-period loan at rate zero: `Loan::new(100, 0, 0, 1, 2024-01-01)`. -/
def exLoan : Loan :=
  { principal := 100, annual_rate := 0, done_months := 0, months := 1,
    start_date := exDate, monthly_principal_payment := 100 }

/-- The single record `exLoan.generate_schedule` produces. -/
def exRec : PaymentRecord :=
  { period := 1, interest := 0, principal_payment := 100,
    remaining_principal := 100, total_payment := 100, interest_rate := 0,
    payment_date := exDate, early_payment := none }

def exRecE0 : PaymentRecord := { exRec with early_payment := some 0 }

def exLoan7 : Loan := { exLoan with annual_rate := 7 }

/-- `Loan::new(0.01, 0, 0, 2, 2024-01-01)`: `0.01 / 2 = 0.005` rounds to
`0.00` (banker's), so the flat installment is zero and the final balance is
never exhausted. -/
def L2 : Loan :=
  { principal := 1/100, annual_rate := 0, done_months := 0, months := 2,
    start_date := exDate, monthly_principal_payment := 0 }

def R2a : PaymentRecord :=
  { period := 1, interest := 0, principal_payment := 0,
    remaining_principal := 1/100, total_payment := 0, interest_rate := 0,
    payment_date := exDate, early_payment := none }

def R2b : PaymentRecord := { R2a with period := 2, payment_date := ⟨2024, 2, 1⟩ }

/-- `Loan::new(0.10, 0, 0, 4, 2024-01-01)`: `0.10 / 4 = 0.025` rounds down
to `0.02` (ties-to-even), so the last period's balance is `0.04` while the
flat installment is `0.02`. -/
def L4 : Loan :=
  { principal := 1/10, annual_rate := 0, done_months := 0, months := 4,
    start_date := exDate, monthly_principal_payment := 1/50 }

def R4a : PaymentRecord :=
  { period := 1, interest := 0, principal_payment := 1/50,
    remaining_principal := 1/10, total_payment := 1/50, interest_rate := 0,
    payment_date := exDate, early_payment := none }

def R4b : PaymentRecord :=
  { R4a with period := 2, remaining_principal := 2/25, payment_date := ⟨2024, 2, 1⟩ }

def R4c : PaymentRecord :=
  { R4a with period := 3, remaining_principal := 3/50, payment_date := ⟨2024, 3, 1⟩ }

def R4d : PaymentRecord :=
  { R4a with period := 4, remaining_principal := 1/25, payment_date := ⟨2024, 4, 1⟩ }

/-! ### Lemmas: the generation loop -/

lemma ratLoop_eq (mpp : ℚ) (hm : 0 ≤ mpp) :
    ∀ (n : ℕ) (rp : ℚ), 0 ≤ rp → ratLoop mpp n rp = max 0 (rp - n * mpp) := by
  intro n
  induction n with
  | zero =>
    intro rp hrp
    simp [ratLoop]
    linarith
  | succ n ih =>
    intro rp hrp
    rw [ratLoop]
    split_ifs with hcap
    · have h0 : ratLoop mpp n (rp - rp) = max 0 (0 - n * mpp) := by
        rw [sub_self]
        exact ih 0 le_rfl
      rw [sub_self] at h0 ⊢
      rw [h0]
      have hnm : (0:ℚ) ≤ (n : ℚ) * mpp := by positivity
      have hn : (0:ℚ) - n * mpp ≤ 0 := by linarith
      have hn1 : rp - (n + 1 : ℕ) * mpp ≤ 0 := by
        push_cast
        nlinarith
      rw [max_eq_left hn, max_eq_left hn1]
    · have hle : mpp ≤ rp := not_lt.mp hcap
      rw [ih (rp - mpp) (by linarith)]
      congr 1
      push_cast
      ring

lemma ratLoop_nonneg (mpp : ℚ) (hm : 0 ≤ mpp) (n : ℕ) (rp : ℚ) (hrp : 0 ≤ rp) :
    0 ≤ ratLoop mpp n rp := by
  rw [ratLoop_eq mpp hm n rp hrp]
  exact le_max_left 0 _

/-- Inversion of one iteration of `genLoop` ending in success. -/
lemma genLoop_succ_ok {l : Loan} {mr mpp : ℚ} {n i : ℕ} {rp : ℚ} {d : Date}
    {s : List PaymentRecord}
    (h : genLoop l mr mpp (n + 1) i rp d = .ok s) :
    ∃ d' rest, nextDate d = some d' ∧
      genLoop l mr mpp n (i + 1) (rp - (if rp < mpp then rp else mpp)) d' = .ok rest ∧
      s = { period := i + l.done_months
            interest := round2 (rp * mr)
            principal_payment := if rp < mpp then rp else mpp
            remaining_principal := rp
            total_payment := round2 (mpp + round2 (rp * mr))
            interest_rate := l.annual_rate
            payment_date := d
            early_payment := none } :: rest := by
  rw [genLoop] at h
  split at h
  · simp at h
  · rename_i d' hnd
    split at h
    · simp at h
    · rename_i rest hrec
      simp only [RustResult.ok.injEq] at h
      exact ⟨d', rest, hnd, hrec, h.symm⟩

lemma genLoop_length {l : Loan} {mr mpp : ℚ} :
    ∀ {n i : ℕ} {rp : ℚ} {d : Date} {s : List PaymentRecord},
      genLoop l mr mpp n i rp d = .ok s → s.length = n := by
  intro n
  induction n with
  | zero =>
    intro i rp d s h
    rw [genLoop] at h
    simp at h
    simp [← h]
  | succ n ih =>
    intro i rp d s h
    obtain ⟨d', rest, _, hrec, hs⟩ := genLoop_succ_ok h
    subst hs
    simp [ih hrec]

lemma genLoop_head {l : Loan} {mr mpp : ℚ} {n i : ℕ} {rp : ℚ} {d : Date}
    {s : List PaymentRecord}
    (h : genLoop l mr mpp (n + 1) i rp d = .ok s) :
    ∃ q, s.head? = some q ∧ q.period = i + l.done_months ∧
      q.remaining_principal = rp := by
  obtain ⟨d', rest, _, _, hs⟩ := genLoop_succ_ok h
  subst hs
  exact ⟨_, rfl, rfl, rfl⟩

lemma genLoop_sum_pp {l : Loan} {mr mpp : ℚ} :
    ∀ {n i : ℕ} {rp : ℚ} {d : Date} {s : List PaymentRecord},
      genLoop l mr mpp n i rp d = .ok s →
      (s.map (fun p => p.principal_payment)).sum = rp - ratLoop mpp n rp := by
  intro n
  induction n with
  | zero =>
    intro i rp d s h
    rw [genLoop] at h
    simp at h
    subst h
    simp [ratLoop]
  | succ n ih =>
    intro i rp d s h
    obtain ⟨d', rest, _, hrec, hs⟩ := genLoop_succ_ok h
    subst hs
    simp only [List.map_cons, List.sum_cons, ih hrec, ratLoop]
    ring

lemma genLoop_last {l : Loan} {mr mpp : ℚ} :
    ∀ {n i : ℕ} {rp : ℚ} {d : Date} {s : List PaymentRecord},
      genLoop l mr mpp (n + 1) i rp d = .ok s →
      ∃ q, s.getLast? = some q ∧
        q.remaining_principal - q.principal_payment = ratLoop mpp (n + 1) rp := by
  intro n
  induction n with
  | zero =>
    intro i rp d s h
    obtain ⟨d', rest, _, hrec, hs⟩ := genLoop_succ_ok h
    rw [genLoop] at hrec
    simp at hrec
    subst hrec
    subst hs
    refine ⟨_, rfl, ?_⟩
    simp [ratLoop]
  | succ n ih =>
    intro i rp d s h
    obtain ⟨d', rest, _, hrec, hs⟩ := genLoop_succ_ok h
    obtain ⟨q, hq, hql⟩ := ih hrec
    subst hs
    refine ⟨q, ?_, ?_⟩
    · rw [List.getLast?_cons, hq]
      cases rest with
      | nil => simp at hq
      | cons a t => simp
    · rw [hql]
      conv_rhs => rw [ratLoop]

lemma genLoop_inv {l : Loan} {mr mpp : ℚ} (hm : 0 ≤ mpp) (hmc : Cents mpp) :
    ∀ {n i : ℕ} {rp : ℚ} {d : Date} {s : List PaymentRecord},
      genLoop l mr mpp n i rp d = .ok s → 0 ≤ rp → Cents rp →
      SchedInv s := by
  intro n
  induction n with
  | zero =>
    intro i rp d s h _ _
    rw [genLoop] at h
    simp at h
    subst h
    exact ⟨by simp, List.chain'_nil⟩
  | succ n ih =>
    intro i rp d s h hrp hc
    obtain ⟨d', rest, _, hrec, hs⟩ := genLoop_succ_ok h
    subst hs
    have hpp0 : 0 ≤ (if rp < mpp then rp else mpp) := by
      split <;> assumption
    have hppc : Cents (if rp < mpp then rp else mpp) := by
      split <;> assumption
    have hrp' : 0 ≤ rp - (if rp < mpp then rp else mpp) := by
      split
      · simp
      · rename_i hq
        have := not_lt.mp hq
        linarith
    have hrpc' : Cents (rp - (if rp < mpp then rp else mpp)) := hc.sub hppc
    obtain ⟨hrecinv, hmono⟩ := ih hrec hrp' hrpc'
    refine ⟨?_, ?_⟩
    · intro p hp
      rcases List.mem_cons.mp hp with hp | hp
      · subst hp
        exact ⟨hrp, hc, hpp0, hppc⟩
      · exact hrecinv p hp
    · refine List.chain'_cons'.mpr ⟨?_, hmono⟩
      intro y hy
      cases n with
      | zero =>
        have : rest = [] := List.length_eq_zero.mp (genLoop_length hrec)
        subst this
        simp at hy
      | succ m =>
        obtain ⟨q, hq, _, hqrp⟩ := genLoop_head hrec
        rw [hq] at hy
        have hy' : q = y := by simpa using hy
        have hyrp : y.remaining_principal = rp - (if rp < mpp then rp else mpp) := by
          rw [← hy']
          exact hqrp
        show y.remaining_principal ≤ rp
        rw [hyrp]
        linarith

lemma daysInMonth_ge {y : ℤ} {m : ℕ} (h1 : 1 ≤ m) (h2 : m ≤ 12) :
    28 ≤ daysInMonth y m := by
  unfold daysInMonth
  split_ifs <;> omega

lemma nextDate_good {d : Date} (h : goodDay d) :
    ∃ d', nextDate d = some d' ∧ goodDay d' := by
  obtain ⟨h1, h2, h3, h4⟩ := h
  have hm1 : 1 ≤ d.month % 12 + 1 := by omega
  have hm2 : d.month % 12 + 1 ≤ 12 := by omega
  have hv1 : dateValid ⟨d.year, d.month % 12 + 1, d.day⟩ :=
    ⟨hm1, hm2, h3, le_trans h4 (daysInMonth_ge hm1 hm2)⟩
  have hv2 : dateValid ⟨d.year + (d.month : ℤ) / 12, d.month % 12 + 1, d.day⟩ :=
    ⟨hm1, hm2, h3, le_trans h4 (daysInMonth_ge hm1 hm2)⟩
  refine ⟨⟨d.year + (d.month : ℤ) / 12, d.month % 12 + 1, d.day⟩, ?_, ?_⟩
  · unfold nextDate Date.withMonth Date.withYear
    rw [if_pos hv1]
    simp only [Option.some_bind]
    rw [if_pos hv2]
  · exact ⟨hm1, hm2, h3, h4⟩

lemma genLoop_ok {l : Loan} {mr mpp : ℚ} :
    ∀ (n i : ℕ) (rp : ℚ) {d : Date}, goodDay d →
      ∃ s, genLoop l mr mpp n i rp d = .ok s := by
  intro n
  induction n with
  | zero => intro i rp d _; exact ⟨[], rfl⟩
  | succ n ih =>
    intro i rp d hd
    obtain ⟨d', hnd, hd'⟩ := nextDate_good hd
    obtain ⟨rest, hrec⟩ := ih (i + 1) (rp - (if rp < mpp then rp else mpp)) hd'
    refine ⟨{ period := i + l.done_months
              interest := round2 (rp * mr)
              principal_payment := if rp < mpp then rp else mpp
              remaining_principal := rp
              total_payment := round2 (mpp + round2 (rp * mr))
              interest_rate := l.annual_rate
              payment_date := d
              early_payment := none } :: rest, ?_⟩
    simp only [genLoop, hnd, hrec]

lemma subU32_ok {a b c : ℕ} : subU32 a b = .ok c ↔ b ≤ a ∧ c = a - b := by
  unfold subU32
  split_ifs with hba
  · simp [hba, eq_comm]
  · simp [hba]

/-- Inversion of a successful `Loan::new`. -/
lemma Loan.new_ok {p r : ℚ} {dm m : ℕ} {d : Date} {l : Loan}
    (h : Loan.new p r dm m d = .ok l) :
    dm < m ∧
      l = { principal := p
            annual_rate := r
            done_months := dm
            months := m
            start_date := d
            monthly_principal_payment := round2 (p / ((m - dm : ℕ) : ℚ)) } := by
  unfold Loan.new at h
  split at h
  · exact RustResult.noConfusion h
  · rename_i count hs
    rw [subU32_ok] at hs
    obtain ⟨hba, hc⟩ := hs
    subst hc
    by_cases h0 : m - dm = 0
    · rw [if_pos h0] at h
      exact RustResult.noConfusion h
    · rw [if_neg h0] at h
      exact ⟨by omega, (RustResult.ok.inj h).symm⟩

lemma generate_schedule_eq {l : Loan} (h : l.done_months ≤ l.months) :
    l.generate_schedule =
      genLoop l (l.annual_rate / 12 / 100) l.monthly_principal_payment
        (l.months - l.done_months) 1 l.principal l.start_date := by
  unfold Loan.generate_schedule subU32
  rw [if_pos h]

/-! ### Lemmas: rate adjustment -/

lemma adjust_rate_ok {l : Loan} {nr : ℚ} {fp : ℕ} {s : List PaymentRecord}
    (h : 1 ≤ fp) :
    l.adjust_rate nr fp s =
      .ok ({ l with annual_rate := nr },
        s.take (fp - 1) ++ (s.drop (fp - 1)).map (rateUpdate nr)) := by
  unfold Loan.adjust_rate subU32
  rw [if_pos h]
  rfl

/-- Index view of the suffix rewrite: untouched below the pivot. -/
lemma suffixMap_getElem_lt {s : List PaymentRecord}
    {f : PaymentRecord → PaymentRecord} {k i : ℕ} (hik : i < k) :
    (s.take k ++ (s.drop k).map f)[i]? = s[i]? := by
  rcases lt_or_le i s.length with hil | hil
  · rw [List.getElem?_append_left
      (by rw [List.length_take]; omega : i < (s.take k).length)]
    exact List.getElem?_take_of_lt hik
  · rw [List.getElem?_eq_none hil, List.getElem?_eq_none]
    simp only [List.length_append, List.length_take, List.length_map,
      List.length_drop]
    omega

/-- Index view of the suffix rewrite: rewritten from the pivot on. -/
lemma suffixMap_getElem_ge {s : List PaymentRecord}
    {f : PaymentRecord → PaymentRecord} {k i : ℕ} (hik : k ≤ i) :
    (s.take k ++ (s.drop k).map f)[i]? = (s[i]?).map f := by
  rcases lt_or_le i s.length with hil | hil
  · have hk : k ≤ s.length := le_trans hik (le_of_lt hil)
    have hlen : (s.take k).length = k := by rw [List.length_take]; omega
    rw [List.getElem?_append_right (by rw [hlen]; exact hik)]
    rw [hlen, List.getElem?_map, List.getElem?_drop]
    have hki : k + (i - k) = i := by omega
    rw [hki]
  · rw [List.getElem?_eq_none hil, List.getElem?_eq_none]
    · simp
    · simp only [List.length_append, List.length_take, List.length_map,
        List.length_drop]
      omega

lemma suffixMap_eq_of_le {s : List PaymentRecord}
    {f : PaymentRecord → PaymentRecord} {k : ℕ} (hk : s.length ≤ k) :
    s.take k ++ (s.drop k).map f = s := by
  rw [List.take_of_length_le hk, List.drop_eq_nil_of_le hk]
  simp

/-! ### Lemmas: early payment -/

/-- Resolution of the target index when `period ≥ done_months + 1`:
no overflow, `idx = period - done_months - 1`. -/
lemma mep_idx {l : Loan} {per : ℕ} (hdm : l.done_months + 1 ≤ per) :
    (subU32 per l.done_months).bind (fun t => subU32 t 1) =
      .ok (per - l.done_months - 1) := by
  unfold subU32
  rw [if_pos (by omega : l.done_months ≤ per)]
  simp only [RustResult.bind]
  rw [if_pos (by omega : 1 ≤ per - l.done_months)]

/-- `period ≤ done_months` makes the u32 index computation underflow:
a debug-build panic, not the no-op the dead `idx < 0` check intends. -/
lemma mep_underflow {l : Loan} {e : ℚ} {per : ℕ} {b : Bool}
    {s : List PaymentRecord} (h : per ≤ l.done_months) :
    l.make_early_payment e per b s =
      .panic "attempt to subtract with overflow" := by
  unfold Loan.make_early_payment subU32
  by_cases hdm : l.done_months ≤ per
  · have hper : per - l.done_months = 0 := by omega
    rw [if_pos hdm, hper]
    simp only [RustResult.bind]
    rw [if_neg (by omega : ¬ 1 ≤ 0)]
  · rw [if_neg hdm]
    simp only [RustResult.bind]

/-- Out-of-range target (`idx ≥ len`): silent no-op. -/
lemma mep_outOfRange {l : Loan} {e : ℚ} {per : ℕ} {b : Bool}
    {s : List PaymentRecord} (hdm : l.done_months + 1 ≤ per)
    (hlen : s.length ≤ per - l.done_months - 1) :
    l.make_early_payment e per b s = .ok (l, s) := by
  unfold Loan.make_early_payment
  rw [mep_idx hdm]
  simp only [RustResult.bind]
  rw [if_neg (Nat.not_lt_zero _), List.getElem?_eq_none hlen]
  rfl

/-- Extra payment exceeding the balance: silent no-op. -/
lemma mep_exceed {l : Loan} {e : ℚ} {per : ℕ} {b : Bool}
    {s : List PaymentRecord} {target : PaymentRecord}
    (hdm : l.done_months + 1 ≤ per)
    (htar : s[per - l.done_months - 1]? = some target)
    (hneg : round2 (target.remaining_principal - e) < 0) :
    l.make_early_payment e per b s = .ok (l, s) := by
  unfold Loan.make_early_payment
  rw [mep_idx hdm]
  simp only [RustResult.bind]
  rw [if_neg (Nat.not_lt_zero _), htar]
  simp only [Option.elim]
  rw [if_pos hneg]

/-- Accepted shorten-term early payment: the resulting state. -/
lemma mep_shorten {l : Loan} {e : ℚ} {per : ℕ}
    {s : List PaymentRecord} {target : PaymentRecord}
    (hdm : l.done_months + 1 ≤ per)
    (htar : s[per - l.done_months - 1]? = some target)
    (hpos : 0 ≤ round2 (target.remaining_principal - e)) :
    l.make_early_payment e per true s = .ok (l,
      (s.set (per - l.done_months - 1) { target with early_payment := some e }).take
          (per - l.done_months - 1)
        ++ shortenLoop (round2 (target.remaining_principal - e))
            ((s.set (per - l.done_months - 1)
              { target with early_payment := some e }).drop (per - l.done_months - 1))) := by
  unfold Loan.make_early_payment
  rw [mep_idx hdm]
  simp only [RustResult.bind]
  rw [if_neg (Nat.not_lt_zero _), htar]
  simp only [Option.elim]
  rw [if_neg (not_lt.mpr hpos), if_pos trivial]

/-- Accepted reduce-installment early payment: the resulting state. -/
lemma mep_reduce {l : Loan} {e : ℚ} {per : ℕ}
    {s : List PaymentRecord} {target : PaymentRecord}
    (hdm : l.done_months + 1 ≤ per)
    (htar : s[per - l.done_months - 1]? = some target)
    (hpos : 0 ≤ round2 (target.remaining_principal - e))
    (hper : target.period ≤ l.months) :
    l.make_early_payment e per false s = .ok
      ({ l with monthly_principal_payment :=
          round2 (round2 (target.remaining_principal - e)
            / ((l.months - target.period + 1 : ℕ) : ℚ)) },
        (s.set (per - l.done_months - 1) { target with early_payment := some e }).take
            (per - l.done_months - 1)
          ++ reduceLoop
              (round2 (round2 (target.remaining_principal - e)
                / ((l.months - target.period + 1 : ℕ) : ℚ)))
              (round2 (target.remaining_principal - e))
              ((s.set (per - l.done_months - 1)
                { target with early_payment := some e }).drop (per - l.done_months - 1))) := by
  unfold Loan.make_early_payment
  rw [mep_idx hdm]
  simp only [RustResult.bind]
  rw [if_neg (Nat.not_lt_zero _), htar]
  simp only [Option.elim]
  rw [if_neg (not_lt.mpr hpos), if_neg (by simp : ¬ false = true),
    subU32_ok.mpr ⟨hper, rfl⟩]

lemma round2_zero : round2 0 = 0 := by
  norm_num [round2, bankersRound]

lemma shortenLoop_nil (rp : ℚ) : shortenLoop rp [] = [] := rfl

lemma shortenLoop_cons (rp : ℚ) (p : PaymentRecord) (rest : List PaymentRecord) :
    shortenLoop rp (p :: rest) =
      if rp - (if rp < p.principal_payment then rp else p.principal_payment) = 0 then
        [{ p with
            remaining_principal := rp
            principal_payment := if rp < p.principal_payment then rp else p.principal_payment
            interest := round2 (rp * (p.interest_rate / 12 / 100))
            total_payment := round2 ((if rp < p.principal_payment then rp else p.principal_payment)
              + round2 (rp * (p.interest_rate / 12 / 100))) }]
      else
        { p with
            remaining_principal := rp
            principal_payment := if rp < p.principal_payment then rp else p.principal_payment
            interest := round2 (rp * (p.interest_rate / 12 / 100))
            total_payment := round2 ((if rp < p.principal_payment then rp else p.principal_payment)
              + round2 (rp * (p.interest_rate / 12 / 100))) }
          :: shortenLoop (rp - (if rp < p.principal_payment then rp else p.principal_payment)) rest := by
  rw [shortenLoop]

lemma shortenLoop_length_le : ∀ (recs : List PaymentRecord) (rp : ℚ),
    (shortenLoop rp recs).length ≤ recs.length := by
  intro recs
  induction recs with
  | nil => intro rp; simp [shortenLoop_nil]
  | cons p rest ih =>
    intro rp
    rw [shortenLoop_cons]
    split_ifs <;>
      simp only [List.length_cons, List.length_nil] <;>
      first
        | omega
        | exact Nat.succ_le_succ (ih _)

lemma shortenLoop_ne_nil (rp : ℚ) (p : PaymentRecord)
    (rest : List PaymentRecord) : shortenLoop rp (p :: rest) ≠ [] := by
  rw [shortenLoop_cons]
  split_ifs <;> simp

lemma shortenLoop_inv : ∀ (recs : List PaymentRecord) (rp : ℚ), 0 ≤ rp → Cents rp →
    (∀ p ∈ recs, 0 ≤ p.principal_payment ∧ Cents p.principal_payment) →
    (∀ p ∈ shortenLoop rp recs, RecInv p) ∧ SchedMono (shortenLoop rp recs) ∧
      ∀ q ∈ (shortenLoop rp recs).head?, q.remaining_principal = rp := by
  intro recs
  induction recs with
  | nil =>
    intro rp h0 hc hpp
    refine ⟨by simp [shortenLoop_nil], by simp [shortenLoop_nil, SchedMono], ?_⟩
    simp [shortenLoop_nil]
  | cons p rest ih =>
    intro rp h0 hc hpp
    obtain ⟨hp0, hpc⟩ := hpp p (List.mem_cons_self p rest)
    have hrest : ∀ q ∈ rest, 0 ≤ q.principal_payment ∧ Cents q.principal_payment :=
      fun q hq => hpp q (List.mem_cons_of_mem p hq)
    have hpp0 : 0 ≤ (if rp < p.principal_payment then rp else p.principal_payment) := by
      split <;> assumption
    have hppc : Cents (if rp < p.principal_payment then rp else p.principal_payment) := by
      split <;> assumption
    have hrp0' : 0 ≤ rp - (if rp < p.principal_payment then rp else p.principal_payment) := by
      split_ifs with hcap
      · simp
      · have := not_lt.mp hcap
        linarith
    have hrpc' : Cents (rp - (if rp < p.principal_payment then rp else p.principal_payment)) :=
      hc.sub hppc
    rw [shortenLoop_cons]
    generalize hgen : (if rp < p.principal_payment then rp else p.principal_payment) = pp
      at hpp0 hppc hrp0' hrpc' ⊢
    split_ifs with hz
    · refine ⟨?_, List.chain'_singleton _, ?_⟩
      · intro q hq
        simp at hq
        subst hq
        exact ⟨h0, hc, hpp0, hppc⟩
      · intro q hq
        simp at hq
        subst hq
        rfl
    · obtain ⟨ihinv, ihmono, ihhead⟩ := ih _ hrp0' hrpc' hrest
      refine ⟨?_, ?_, ?_⟩
      · intro q hq
        rcases List.mem_cons.mp hq with h | h
        · subst h
          exact ⟨h0, hc, hpp0, hppc⟩
        · exact ihinv q h
      · refine List.chain'_cons'.mpr ⟨?_, ihmono⟩
        intro y hy
        have hyrp := ihhead y hy
        show y.remaining_principal ≤ rp
        rw [hyrp]
        linarith
      · intro q hq
        simp at hq
        subst hq
        rfl

lemma shortenLoop_truncated : ∀ (recs : List PaymentRecord) (rp : ℚ),
    (shortenLoop rp recs).length < recs.length →
    ∃ q, (shortenLoop rp recs).getLast? = some q ∧
      q.remaining_principal - q.principal_payment = 0 := by
  intro recs
  induction recs with
  | nil =>
    intro rp h
    simp [shortenLoop_nil] at h
  | cons p rest ih =>
    intro rp h
    rw [shortenLoop_cons] at h ⊢
    generalize hgen : (if rp < p.principal_payment then rp else p.principal_payment) = pp
      at h ⊢
    split_ifs at h ⊢ with hz
    · refine ⟨{ p with
          remaining_principal := rp
          principal_payment := pp
          interest := round2 (rp * (p.interest_rate / 12 / 100))
          total_payment := round2 (pp + round2 (rp * (p.interest_rate / 12 / 100))) }, ?_, hz⟩
      simp
    · have hlen : (shortenLoop (rp - pp) rest).length < rest.length := by
        simp only [List.length_cons] at h
        omega
      obtain ⟨q, hq, hqe⟩ := ih _ hlen
      refine ⟨q, ?_, hqe⟩
      cases hloop : shortenLoop (rp - pp) rest with
      | nil => rw [hloop] at hq; simp at hq
      | cons a t =>
        rw [hloop] at hq
        rw [List.getLast?_cons_cons]
        exact hq

/-- A full-balance shorten-term payment: the walk stops at the very first
record and truncates everything after it. -/
lemma shortenLoop_zero (p : PaymentRecord) (rest : List PaymentRecord)
    (hpp : 0 ≤ p.principal_payment) :
    ∃ q, shortenLoop 0 (p :: rest) = [q] ∧ q.remaining_principal = 0 ∧
      q.principal_payment = 0 ∧ q.period = p.period ∧
      q.early_payment = p.early_payment := by
  have hpp' : (if (0:ℚ) < p.principal_payment then (0:ℚ) else p.principal_payment) = 0 := by
    split_ifs with h
    · rfl
    · exact le_antisymm (not_lt.mp h) hpp
  rw [shortenLoop_cons]
  rw [if_pos (by rw [hpp']; ring)]
  exact ⟨_, rfl, rfl, hpp', rfl, rfl⟩

lemma reduceLoop_nil (mpp rp : ℚ) : reduceLoop mpp rp [] = [] := rfl

lemma reduceLoop_cons (mpp rp : ℚ) (p : PaymentRecord) (rest : List PaymentRecord) :
    reduceLoop mpp rp (p :: rest) =
      { p with
          remaining_principal := rp
          principal_payment := if rp < mpp then rp else mpp
          interest := round2 (rp * (p.interest_rate / 12 / 100))
          total_payment := round2 ((if rp < mpp then rp else mpp)
            + round2 (rp * (p.interest_rate / 12 / 100))) }
        :: reduceLoop mpp (rp - (if rp < mpp then rp else mpp)) rest := by
  rw [reduceLoop]

lemma reduceLoop_length (mpp : ℚ) : ∀ (recs : List PaymentRecord) (rp : ℚ),
    (reduceLoop mpp rp recs).length = recs.length := by
  intro recs
  induction recs with
  | nil => intro rp; simp [reduceLoop_nil]
  | cons p rest ih =>
    intro rp
    rw [reduceLoop_cons]
    simp only [List.length_cons, ih]

lemma reduceLoop_inv (mpp : ℚ) (hm : 0 ≤ mpp) (hmc : Cents mpp) :
    ∀ (recs : List PaymentRecord) (rp : ℚ), 0 ≤ rp → Cents rp →
    (∀ p ∈ reduceLoop mpp rp recs, RecInv p) ∧ SchedMono (reduceLoop mpp rp recs) ∧
      ∀ q ∈ (reduceLoop mpp rp recs).head?, q.remaining_principal = rp := by
  intro recs
  induction recs with
  | nil =>
    intro rp h0 hc
    refine ⟨by simp [reduceLoop_nil], by simp [reduceLoop_nil, SchedMono], ?_⟩
    simp [reduceLoop_nil]
  | cons p rest ih =>
    intro rp h0 hc
    have hpp0 : 0 ≤ (if rp < mpp then rp else mpp) := by
      split <;> assumption
    have hppc : Cents (if rp < mpp then rp else mpp) := by
      split <;> assumption
    have hrp0' : 0 ≤ rp - (if rp < mpp then rp else mpp) := by
      split_ifs with hcap
      · simp
      · have := not_lt.mp hcap
        linarith
    have hrpc' : Cents (rp - (if rp < mpp then rp else mpp)) := hc.sub hppc
    obtain ⟨ihinv, ihmono, ihhead⟩ := ih _ hrp0' hrpc'
    rw [reduceLoop_cons]
    refine ⟨?_, ?_, ?_⟩
    · intro q hq
      rcases List.mem_cons.mp hq with h | h
      · subst h
        exact ⟨h0, hc, hpp0, hppc⟩
      · exact ihinv q h
    · refine List.chain'_cons'.mpr ⟨?_, ihmono⟩
      intro y hy
      have hyrp := ihhead y hy
      show y.remaining_principal ≤ rp
      rw [hyrp]
      linarith
    · intro q hq
      simp at hq
      subst hq
      rfl

/-! ### Lemmas: invariant preservation across mutations -/

lemma set_take (s : List PaymentRecord) (idx : ℕ) (v : PaymentRecord) :
    (s.set idx v).take idx = s.take idx := by
  apply List.ext_getElem?
  intro i
  by_cases hi : i < idx
  · rw [List.getElem?_take_of_lt hi, List.getElem?_take_of_lt hi,
      List.getElem?_set_ne (by omega)]
  · rw [List.getElem?_eq_none, List.getElem?_eq_none]
    · rw [List.length_take]
      omega
    · rw [List.length_take, List.length_set]
      omega

lemma set_drop {s : List PaymentRecord} {idx : ℕ} (v : PaymentRecord)
    (h : idx < s.length) :
    (s.set idx v).drop idx = v :: s.drop (idx + 1) := by
  have h' : idx < (s.set idx v).length := by
    rw [List.length_set]
    exact h
  rw [List.drop_eq_getElem_cons h']
  congr 1
  · exact List.getElem_set_self h'
  · apply List.ext_getElem?
    intro i
    rw [List.getElem?_drop, List.getElem?_drop, List.getElem?_set_ne (by omega)]

lemma schedMono_consec {s : List PaymentRecord} (h : SchedMono s) {i : ℕ}
    (hi : i + 1 < s.length) :
    (s.get ⟨i + 1, hi⟩).remaining_principal ≤
      (s.get ⟨i, by omega⟩).remaining_principal := by
  rw [SchedMono, List.chain'_iff_get] at h
  exact h i (by omega)

/-- Replacing the suffix of a well-formed schedule from position `idx` with a
well-formed block whose head balance does not exceed the old balance at
`idx` keeps the schedule well-formed. -/
lemma sched_replace_inv {s : List PaymentRecord} {idx : ℕ} {out : List PaymentRecord}
    (hidx : idx < s.length) (hinv : SchedInv s)
    (hout_inv : ∀ p ∈ out, RecInv p) (hout_mono : SchedMono out)
    (hout_head : ∀ q ∈ out.head?,
      q.remaining_principal ≤ (s.get ⟨idx, hidx⟩).remaining_principal) :
    SchedInv (s.take idx ++ out) := by
  constructor
  · intro p hp
    rcases List.mem_append.mp hp with hp | hp
    · exact hinv.1 p (List.take_subset idx s hp)
    · exact hout_inv p hp
  · rw [SchedMono, List.chain'_append]
    refine ⟨hinv.2.take idx, hout_mono, ?_⟩
    intro x hx y hy
    rcases Nat.eq_zero_or_pos idx with h0 | h0
    · subst h0
      simp at hx
    · have hlen : (s.take idx).length = idx := by
        rw [List.length_take]
        omega
      have hx' : (s.take idx).getLast? = s[idx - 1]? := by
        rw [List.getLast?_eq_getElem?, hlen, List.getElem?_take_of_lt (by omega)]
      rw [Option.mem_def, hx', List.getElem?_eq_getElem (by omega : idx - 1 < s.length)]
        at hx
      have hxx : x = s.get ⟨idx - 1, by omega⟩ := by
        simpa [List.get_eq_getElem] using hx.symm
    -- x is the record before the pivot; chain the two inequalities
      have hstep := schedMono_consec hinv.2 (i := idx - 1)
        (by omega : idx - 1 + 1 < s.length)
      have hfin : (⟨idx - 1 + 1, by omega⟩ : Fin s.length) = ⟨idx, hidx⟩ := by
        apply Fin.ext
        show idx - 1 + 1 = idx
        omega
      rw [hfin] at hstep
      have hhead := hout_head y hy
      show y.remaining_principal ≤ x.remaining_principal
      rw [hxx]
      exact le_trans hhead hstep

lemma schedMono_congr {s t : List PaymentRecord}
    (hlen : t.length = s.length)
    (hrp : ∀ i : ℕ, (t[i]?).map PaymentRecord.remaining_principal =
      (s[i]?).map PaymentRecord.remaining_principal)
    (h : SchedMono s) : SchedMono t := by
  rw [SchedMono, List.chain'_iff_get] at h ⊢
  intro i hi
  have hi1 : i + 1 < t.length := by omega
  have hi0 : i < t.length := by omega
  have hs1 : i + 1 < s.length := by omega
  have hs0 : i < s.length := by omega
  have e0 := hrp i
  rw [List.getElem?_eq_getElem hi0, List.getElem?_eq_getElem hs0] at e0
  have e1 := hrp (i + 1)
  rw [List.getElem?_eq_getElem hi1, List.getElem?_eq_getElem hs1] at e1
  simp only [Option.map_some'] at e0 e1
  have hr := h i (by omega)
  simp only [List.get_eq_getElem] at hr ⊢
  rw [Option.some.inj e0, Option.some.inj e1]
  exact hr

lemma adjust_rate_panic (l : Loan) (r : ℚ) (s : List PaymentRecord) :
    l.adjust_rate r 0 s = .panic "attempt to subtract with overflow" := by
  unfold Loan.adjust_rate subU32
  rw [if_neg (by omega)]

lemma adjust_rate_StInv {l : Loan} {r : ℚ} {fp : ℕ} {s : List PaymentRecord}
    {l' : Loan} {s' : List PaymentRecord}
    (hl : 0 ≤ l.monthly_principal_payment ∧ Cents l.monthly_principal_payment)
    (hs : SchedInv s)
    (h : l.adjust_rate r fp s = .ok (l', s')) :
    (0 ≤ l'.monthly_principal_payment ∧ Cents l'.monthly_principal_payment) ∧
      SchedInv s' := by
  rcases Nat.eq_zero_or_pos fp with h0 | h1
  · subst h0
    rw [adjust_rate_panic] at h
    exact RustResult.noConfusion h
  · rw [adjust_rate_ok h1] at h
    have hp := RustResult.ok.inj h
    have hl' : l' = { l with annual_rate := r } := (congrArg Prod.fst hp).symm
    have hs' : s' = s.take (fp - 1) ++ (s.drop (fp - 1)).map (rateUpdate r) :=
      (congrArg Prod.snd hp).symm
    subst hl'
    subst hs'
    refine ⟨hl, ?_, ?_⟩
    · intro p hp'
      rcases List.mem_append.mp hp' with hp' | hp'
      · exact hs.1 p (List.take_subset _ s hp')
      · obtain ⟨q, hq, hqe⟩ := List.mem_map.mp hp'
        subst hqe
        exact hs.1 q (List.drop_subset _ s hq)
    · refine schedMono_congr ?_ ?_ hs.2
      · simp only [List.length_append, List.length_take, List.length_map,
          List.length_drop]
        omega
      · intro i
        by_cases hik : i < fp - 1
        · rw [suffixMap_getElem_lt hik]
        · rw [suffixMap_getElem_ge (by omega)]
          cases hsi : s[i]? with
          | none => rfl
          | some p => rfl

lemma mep_reduce_panic {l : Loan} {e : ℚ} {per : ℕ}
    {s : List PaymentRecord} {target : PaymentRecord}
    (hdm : l.done_months + 1 ≤ per)
    (htar : s[per - l.done_months - 1]? = some target)
    (hpos : 0 ≤ round2 (target.remaining_principal - e))
    (hper : ¬ target.period ≤ l.months) :
    l.make_early_payment e per false s =
      .panic "attempt to subtract with overflow" := by
  unfold Loan.make_early_payment
  rw [mep_idx hdm]
  simp only [RustResult.bind]
  rw [if_neg (Nat.not_lt_zero _), htar]
  simp only [Option.elim]
  rw [if_neg (not_lt.mpr hpos), if_neg (by simp : ¬ false = true)]
  unfold subU32
  rw [if_neg hper]

lemma mep_StInv {l : Loan} {e : ℚ} {per : ℕ} {b : Bool} {s : List PaymentRecord}
    {l' : Loan} {s' : List PaymentRecord}
    (he : 0 ≤ e)
    (hl : 0 ≤ l.monthly_principal_payment ∧ Cents l.monthly_principal_payment)
    (hs : SchedInv s)
    (h : l.make_early_payment e per b s = .ok (l', s')) :
    (0 ≤ l'.monthly_principal_payment ∧ Cents l'.monthly_principal_payment) ∧
      SchedInv s' := by
  by_cases hdm : l.done_months + 1 ≤ per
  case neg =>
    rw [mep_underflow (by omega)] at h
    exact RustResult.noConfusion h
  case pos =>
    cases htar : s[per - l.done_months - 1]? with
    | none =>
      rw [mep_outOfRange hdm (List.getElem?_eq_none_iff.mp htar)] at h
      have hp := RustResult.ok.inj h
      injection hp with h1 h2
      rw [← h1, ← h2]
      exact ⟨hl, hs⟩
    | some target =>
      have hidx : per - l.done_months - 1 < s.length := by
        by_contra hle
        rw [List.getElem?_eq_none (by omega)] at htar
        exact Option.noConfusion htar
      have htget : s.get ⟨per - l.done_months - 1, hidx⟩ = target := by
        have := List.getElem?_eq_getElem hidx
        rw [htar] at this
        simpa [List.get_eq_getElem] using (Option.some.inj this).symm
      have htmem : target ∈ s := List.getElem?_mem htar
      obtain ⟨ht0, htc, htp0, htpc⟩ := hs.1 target htmem
      by_cases hneg : round2 (target.remaining_principal - e) < 0
      · rw [mep_exceed hdm htar hneg] at h
        have hp := RustResult.ok.inj h
        injection hp with h1 h2
        rw [← h1, ← h2]
        exact ⟨hl, hs⟩
      · have hpos : 0 ≤ round2 (target.remaining_principal - e) := not_lt.mp hneg
        have hnr_le : round2 (target.remaining_principal - e) ≤
            target.remaining_principal := by
          calc round2 (target.remaining_principal - e)
              ≤ round2 target.remaining_principal := round2_mono (by linarith)
            _ = target.remaining_principal := round2_eq_self htc
        have hnrc : Cents (round2 (target.remaining_principal - e)) :=
          cents_round2 _
        cases b with
        | true =>
          rw [mep_shorten hdm htar hpos] at h
          injection RustResult.ok.inj h with h1 h2
          subst h2
          subst h1
          refine ⟨hl, ?_⟩
          rw [set_take, set_drop _ hidx]
          have hpps : ∀ p ∈ ({ target with early_payment := some e }
              :: s.drop (per - l.done_months - 1 + 1)),
              0 ≤ p.principal_payment ∧ Cents p.principal_payment := by
            intro p hp'
            rcases List.mem_cons.mp hp' with hp' | hp'
            · subst hp'
              exact ⟨htp0, htpc⟩
            · exact ⟨(hs.1 p (List.drop_subset _ s hp')).2.2.1,
                (hs.1 p (List.drop_subset _ s hp')).2.2.2⟩
          obtain ⟨hoinv, homono, hohead⟩ :=
            shortenLoop_inv _ _ hpos hnrc hpps
          exact sched_replace_inv hidx hs hoinv homono (by
            intro q hq
            rw [hohead q hq, htget]
            exact hnr_le)
        | false =>
          by_cases hper : target.period ≤ l.months
          · rw [mep_reduce hdm htar hpos hper] at h
            injection RustResult.ok.inj h with h1 h2
            subst h2
            have hmpp0 : 0 ≤ round2 (round2 (target.remaining_principal - e)
                / ((l.months - target.period + 1 : ℕ) : ℚ)) := by
              apply round2_nonneg
              apply div_nonneg hpos
              positivity
            have hmppc : Cents (round2 (round2 (target.remaining_principal - e)
                / ((l.months - target.period + 1 : ℕ) : ℚ))) := cents_round2 _
            refine ⟨?_, ?_⟩
            · rw [← h1]
              exact ⟨hmpp0, hmppc⟩
            · rw [set_take, set_drop _ hidx]
              obtain ⟨hoinv, homono, hohead⟩ :=
                reduceLoop_inv _ hmpp0 hmppc _ _ hpos hnrc
              exact sched_replace_inv hidx hs hoinv homono (by
                intro q hq
                rw [hohead q hq, htget]
                exact hnr_le)
          · rw [mep_reduce_panic hdm htar hpos hper] at h
            exact RustResult.noConfusion h

lemma applyOp_StInv {st st' : Loan × List PaymentRecord} {op : LoanOp}
    (hop : OpNonneg op) (hinv : StInv st) (h : applyOp st op = .ok st') :
    StInv st' := by
  obtain ⟨l, s⟩ := st
  obtain ⟨l', s'⟩ := st'
  cases op with
  | adjustRate r fp => exact adjust_rate_StInv hinv.1 hinv.2 h
  | earlyPayment e per b => exact mep_StInv hop hinv.1 hinv.2 h

lemma applyOps_StInv : ∀ {ops : List LoanOp} {st st' : Loan × List PaymentRecord},
    (∀ op ∈ ops, OpNonneg op) → StInv st → applyOps st ops = .ok st' →
    StInv st' := by
  intro ops
  induction ops with
  | nil =>
    intro st st' _ hinv h
    rw [applyOps] at h
    rw [← RustResult.ok.inj h]
    exact hinv
  | cons op ops ih =>
    intro st st' hops hinv h
    rw [applyOps] at h
    cases hop : applyOp st op with
    | panic m =>
      rw [hop] at h
      simp only [RustResult.bind] at h
      exact RustResult.noConfusion h
    | ok st1 =>
      rw [hop] at h
      simp only [RustResult.bind] at h
      exact ih (fun o ho => hops o (List.mem_cons_of_mem _ ho))
        (applyOp_StInv (hops op (List.mem_cons_self _ _)) hinv hop) h

/-- Inversion of a successful `generate_schedule`. -/
lemma generate_ok_inv {l : Loan} {s : List PaymentRecord}
    (h : l.generate_schedule = .ok s) :
    l.done_months ≤ l.months ∧
      genLoop l (l.annual_rate / 12 / 100) l.monthly_principal_payment
        (l.months - l.done_months) 1 l.principal l.start_date = .ok s := by
  unfold Loan.generate_schedule at h
  split at h
  · exact RustResult.noConfusion h
  · rename_i count hs
    rw [subU32_ok] at hs
    obtain ⟨hba, hc⟩ := hs
    subst hc
    exact ⟨hba, h⟩

/-- Generation establishes the combined invariant. -/
lemma generate_StInv {p r : ℚ} {dm m : ℕ} {d : Date} {l : Loan}
    {s : List PaymentRecord}
    (hp0 : 0 ≤ p) (hpc : Cents p)
    (hnew : Loan.new p r dm m d = .ok l)
    (hgen : l.generate_schedule = .ok s) :
    StInv (l, s) := by
  obtain ⟨hdm, hl⟩ := Loan.new_ok hnew
  subst hl
  have hm0 : 0 ≤ round2 (p / ((m - dm : ℕ) : ℚ)) :=
    round2_nonneg (div_nonneg hp0 (by positivity))
  have hmc : Cents (round2 (p / ((m - dm : ℕ) : ℚ))) := cents_round2 _
  obtain ⟨hba, hloop⟩ := generate_ok_inv hgen
  exact ⟨⟨hm0, hmc⟩, genLoop_inv hm0 hmc hloop hp0 hpc⟩

/-! ### Evaluating the model on the concrete instances -/

lemma exLoan_new : Loan.new 100 0 0 1 exDate = .ok exLoan := by
  unfold Loan.new subU32
  norm_num [exLoan, round2, bankersRound]

lemma exLoan_gen : exLoan.generate_schedule = .ok [exRec] := by
  rw [generate_schedule_eq (by norm_num [exLoan])]
  norm_num [exLoan, exDate, exRec, genLoop, nextDate, Date.withMonth,
    Date.withYear, dateValid, daysInMonth, isLeapYear, round2, bankersRound]

lemma L2_new : Loan.new (1/100) 0 0 2 exDate = .ok L2 := by
  unfold Loan.new subU32
  norm_num [L2, round2, bankersRound]

lemma L2_gen : L2.generate_schedule = .ok [R2a, R2b] := by
  rw [generate_schedule_eq (by norm_num [L2])]
  norm_num [L2, exDate, R2a, R2b, genLoop, nextDate, Date.withMonth,
    Date.withYear, dateValid, daysInMonth, isLeapYear, round2, bankersRound]

lemma L4_new : Loan.new (1/10) 0 0 4 exDate = .ok L4 := by
  unfold Loan.new subU32
  norm_num [L4, round2, bankersRound]

lemma L4_gen : L4.generate_schedule = .ok [R4a, R4b, R4c, R4d] := by
  rw [generate_schedule_eq (by norm_num [L4])]
  norm_num [L4, exDate, R4a, R4b, R4c, R4d, genLoop, nextDate, Date.withMonth,
    Date.withYear, dateValid, daysInMonth, isLeapYear, round2, bankersRound]

lemma exLoan_adjust : exLoan.adjust_rate 0 1 [exRec] = .ok (exLoan, [exRec]) := by
  rw [adjust_rate_ok (by omega)]
  norm_num [exLoan, exRec, rateUpdate, round2, bankersRound]

lemma exLoan_adjust7 : exLoan.adjust_rate 7 5 [exRec] = .ok (exLoan7, [exRec]) := by
  rw [adjust_rate_ok (by omega)]
  norm_num [exLoan7]

lemma exLoan_mep_shorten :
    exLoan.make_early_payment 0 1 true [exRec] = .ok (exLoan, [exRecE0]) := by
  rw [mep_shorten (by decide)
    (by simp [exLoan] : [exRec][1 - exLoan.done_months - 1]? = some exRec)
    (by norm_num [exRec, round2, bankersRound])]
  norm_num [exRec, exRecE0, shortenLoop_cons, round2, bankersRound]

lemma exLoan_mep_reduce :
    exLoan.make_early_payment 0 1 false [exRec] = .ok (exLoan, [exRecE0]) := by
  rw [mep_reduce (by decide)
    (by simp [exLoan] : [exRec][1 - exLoan.done_months - 1]? = some exRec)
    (by norm_num [exRec, round2, bankersRound]) (by decide)]
  norm_num [exLoan, exRec, exRecE0, reduceLoop_cons, reduceLoop_nil, round2,
    bankersRound]

lemma L4_mep_proj :
    (L4.make_early_payment (1/100) 4 false [R4a, R4b, R4c, R4d]).getOk?.map
      (fun st => st.1.monthly_principal_payment) = some (3/100) := by
  rw [mep_reduce (by decide)
    (by simp [L4] : [R4a, R4b, R4c, R4d][4 - L4.done_months - 1]? = some R4d)
    (by norm_num [R4d, round2, bankersRound]) (by decide)]
  norm_num [RustResult.getOk?, L4, R4d, round2, bankersRound]

lemma exRec_schedinv : SchedInv [exRec] := by
  refine ⟨?_, ?_⟩
  · intro q hq
    simp at hq
    subst hq
    refine ⟨by norm_num [exRec], ?_, by norm_num [exRec], ?_⟩ <;>
      exact (cents_iff _).mpr ⟨10000, by norm_num [exRec]⟩
  · exact List.chain'_singleton _

/-! ### The claims -/

/-- **C1** (amended).  For every loan built by `Loan::new` with non-negative
principal, the generated schedule's `principal_payment`s sum to the
principal within one cent per period; the last record's
`remaining_principal - principal_payment` equals
`max 0 (principal - count · flat_installment)`, which is at most half a cent
per period and is `0` exactly when `count · flat_installment ≥ principal` —
but not unconditionally `0` as the claim states (see the counterexample:
when `round2(principal/count)` rounds down, a residue is left). -/
theorem claim_C1 {p r : ℚ} {dm m : ℕ} {d : Date} {l : Loan}
    {s : List PaymentRecord}
    (hp0 : 0 ≤ p)
    (hnew : Loan.new p r dm m d = .ok l)
    (hgen : l.generate_schedule = .ok s) :
    |(s.map (fun q => q.principal_payment)).sum - p| ≤
      ((m - dm : ℕ) : ℚ) * (1/100) ∧
    ∃ q, s.getLast? = some q ∧
      q.remaining_principal - q.principal_payment =
        max 0 (p - ((m - dm : ℕ) : ℚ) * l.monthly_principal_payment) ∧
      q.remaining_principal - q.principal_payment ≤ ((m - dm : ℕ) : ℚ) * (1/200) ∧
      (p ≤ ((m - dm : ℕ) : ℚ) * l.monthly_principal_payment →
        q.remaining_principal - q.principal_payment = 0) := by
  obtain ⟨hdm, hl⟩ := Loan.new_ok hnew
  have hml : l.monthly_principal_payment = round2 (p / ((m - dm : ℕ) : ℚ)) := by
    rw [hl]
  have hpr : l.principal = p := by rw [hl]
  have hmm : l.months = m := by rw [hl]
  have hdmm : l.done_months = dm := by rw [hl]
  obtain ⟨hba, hloop⟩ := generate_ok_inv hgen
  rw [hmm, hdmm, hpr, hml] at hloop
  have hM0 : 0 ≤ round2 (p / ((m - dm : ℕ) : ℚ)) :=
    round2_nonneg (div_nonneg hp0 (by positivity))
  have hsum := genLoop_sum_pp hloop
  have hrl := ratLoop_eq _ hM0 (m - dm) p hp0
  have hnq : (0:ℚ) < ((m - dm : ℕ) : ℚ) := by
    have h1 : 0 < m - dm := by omega
    exact_mod_cast h1
  have hMge := round2_ge (p / ((m - dm : ℕ) : ℚ))
  have hfield : ((m - dm : ℕ) : ℚ) * (p / ((m - dm : ℕ) : ℚ)) = p := by
    field_simp
  have hkey : p - ((m - dm : ℕ) : ℚ) * round2 (p / ((m - dm : ℕ) : ℚ)) ≤
      ((m - dm : ℕ) : ℚ) * (1/200) := by
    have h2 := mul_le_mul_of_nonneg_left hMge (le_of_lt hnq)
    rw [mul_sub, hfield] at h2
    linarith
  have hmax200 : max 0 (p - ((m - dm : ℕ) : ℚ) * round2 (p / ((m - dm : ℕ) : ℚ)))
      ≤ ((m - dm : ℕ) : ℚ) * (1/200) :=
    max_le (by positivity) hkey
  rw [hml]
  constructor
  · rw [hsum, hrl]
    have heq : p - max 0 (p - ((m - dm : ℕ) : ℚ) * round2 (p / ((m - dm : ℕ) : ℚ))) - p
        = -(max 0 (p - ((m - dm : ℕ) : ℚ) * round2 (p / ((m - dm : ℕ) : ℚ)))) := by
      ring
    rw [heq, abs_neg, abs_of_nonneg (le_max_left _ _)]
    calc max 0 (p - ((m - dm : ℕ) : ℚ) * round2 (p / ((m - dm : ℕ) : ℚ)))
        ≤ ((m - dm : ℕ) : ℚ) * (1/200) := hmax200
      _ ≤ ((m - dm : ℕ) : ℚ) * (1/100) := by nlinarith
  · obtain ⟨k, hk⟩ : ∃ k, m - dm = k + 1 := ⟨m - dm - 1, by omega⟩
    rw [hk] at hloop
    obtain ⟨q, hql, hqe⟩ := genLoop_last hloop
    rw [← hk] at hqe
    refine ⟨q, hql, ?_, ?_, ?_⟩
    · rw [hqe, hrl]
    · rw [hqe, hrl]
      exact hmax200
    · intro hple
      rw [hqe, hrl]
      exact max_eq_left (by linarith)

/-- **C1** counterexample: `Loan::new(0.01, 0%, 0, 2, _)` generates a
schedule whose last record has `remaining_principal - principal_payment =
0.01 ≠ 0` (the flat installment `round2(0.01/2) = 0.00` never exhausts the
balance), refuting "the last record satisfies
`remaining_principal - principal_payment == 0`". -/
theorem claim_C1_counterexample :
    Loan.new (1/100) 0 0 2 exDate = .ok L2 ∧
    L2.generate_schedule = .ok [R2a, R2b] ∧
    [R2a, R2b].getLast? = some R2b ∧
    R2b.remaining_principal - R2b.principal_payment = 1/100 ∧
    (1/100 : ℚ) ≠ 0 :=
  ⟨L2_new, L2_gen, rfl, by norm_num [R2b, R2a], by norm_num⟩

theorem claim_C1_witness :
    |(([exRec] : List PaymentRecord).map (fun q => q.principal_payment)).sum - 100| ≤
      ((1 - 0 : ℕ) : ℚ) * (1/100) ∧
    ∃ q, ([exRec] : List PaymentRecord).getLast? = some q ∧
      q.remaining_principal - q.principal_payment =
        max 0 (100 - ((1 - 0 : ℕ) : ℚ) * exLoan.monthly_principal_payment) ∧
      q.remaining_principal - q.principal_payment ≤ ((1 - 0 : ℕ) : ℚ) * (1/200) ∧
      (100 ≤ ((1 - 0 : ℕ) : ℚ) * exLoan.monthly_principal_payment →
        q.remaining_principal - q.principal_payment = 0) :=
  claim_C1 (by norm_num) exLoan_new exLoan_gen

/-- **C2**.  Starting from any constructed loan's generated schedule, after
any sequence of `adjust_rate` / `make_early_payment` calls with non-negative
extra payments that returns normally, every record's `remaining_principal`
is non-negative and the balances are non-increasing along the schedule. -/
theorem claim_C2 {p r : ℚ} {dm m : ℕ} {d : Date} {l : Loan}
    {s : List PaymentRecord} {ops : List LoanOp} {l' : Loan}
    {s' : List PaymentRecord}
    (hp0 : 0 ≤ p) (hpc : Cents p)
    (hnew : Loan.new p r dm m d = .ok l)
    (hgen : l.generate_schedule = .ok s)
    (hops : ∀ op ∈ ops, OpNonneg op)
    (happ : applyOps (l, s) ops = .ok (l', s')) :
    (∀ q ∈ s', 0 ≤ q.remaining_principal) ∧ SchedMono s' := by
  have hst := applyOps_StInv hops (generate_StInv hp0 hpc hnew hgen) happ
  exact ⟨fun q hq => (hst.2.1 q hq).1, hst.2.2⟩

theorem claim_C2_witness :
    (∀ q ∈ ([exRec] : List PaymentRecord), 0 ≤ q.remaining_principal) ∧
      SchedMono [exRec] :=
  claim_C2 (by norm_num) ((cents_iff _).mpr ⟨10000, by norm_num⟩)
    exLoan_new exLoan_gen (by simp)
    (rfl : applyOps (exLoan, [exRec]) [] = .ok (exLoan, [exRec]))

/-- **C3** (amended).  Constructing a `Loan` whose `total_periods` equals
its `elapsed_periods` fails at construction time — but by a `rust_decimal`
division-by-zero panic while computing `flat_installment`, not by a
recoverable domain error; the invalid input is never silently coerced into
a `Loan` value. -/
theorem claim_C3_amended (p r : ℚ) (dm : ℕ) (d : Date) :
    Loan.new p r dm dm d = .panic "Division by zero" := by
  unfold Loan.new subU32
  rw [if_pos (le_refl dm)]
  simp

/-- **C3** counterexample: at the concrete zero-length term the constructor
panics; there is no error-valued outcome (the Rust signature returns `Self`,
and `Decimal` division panics), contradicting "fails with a domain error
… rather than panicking opaquely". -/
theorem claim_C3_counterexample :
    Loan.new 100 (42/10) 57 57 ⟨2024, 10, 19⟩ = .panic "Division by zero" := by
  unfold Loan.new subU32
  norm_num

/-- **C4** (code bug).  When `period ≤ elapsed_periods`, the u32 index
computation `period - done_months - 1` underflows and panics (debug
semantics) before the source's dead `if idx < 0 { return; }` guard — which
shows a silent no-op was intended — can run.  The claimed silent no-op does
not happen: the call aborts. -/
theorem claim_C4 (l : Loan) (e : ℚ) (per : ℕ) (b : Bool)
    (s : List PaymentRecord) (h : per ≤ l.done_months) :
    l.make_early_payment e per b s =
      .panic "attempt to subtract with overflow" :=
  mep_underflow h

theorem claim_C4_witness :
    exLoan.make_early_payment 0 0 true [] =
      .panic "attempt to subtract with overflow" :=
  claim_C4 exLoan 0 0 true [] (by decide)

/-- **C5**.  For `from_period ≥ 1`, `adjust_rate` keeps the length, leaves
every record at 1-indexed position `< from_period` unchanged, rewrites every
record from `from_period` on with `rateUpdate` (new rate, interest
recomputed at the new rate, total recomputed; nothing else), leaves
`principal_payment`, `remaining_principal`, `payment_date`, `period` and
`early_payment` of every record unchanged, and is the identity on the
schedule when `from_period` exceeds its length. -/
theorem claim_C5 {l : Loan} {nr : ℚ} {fp : ℕ} {s : List PaymentRecord}
    {l' : Loan} {s' : List PaymentRecord}
    (hfp : 1 ≤ fp)
    (h : l.adjust_rate nr fp s = .ok (l', s')) :
    s'.length = s.length ∧
    (∀ i : ℕ, i < fp - 1 → s'[i]? = s[i]?) ∧
    (∀ i : ℕ, fp - 1 ≤ i → s'[i]? = (s[i]?).map (rateUpdate nr)) ∧
    (∀ i : ℕ, ∀ q ∈ s'[i]?, ∀ pr ∈ s[i]?,
      q.principal_payment = pr.principal_payment ∧
      q.remaining_principal = pr.remaining_principal ∧
      q.payment_date = pr.payment_date ∧
      q.period = pr.period ∧
      q.early_payment = pr.early_payment) ∧
    (s.length < fp → s' = s) := by
  rw [adjust_rate_ok hfp] at h
  injection RustResult.ok.inj h with h1 h2
  subst h2
  refine ⟨?_, ?_, ?_, ?_, ?_⟩
  · simp only [List.length_append, List.length_take, List.length_map,
      List.length_drop]
    omega
  · intro i hi
    exact suffixMap_getElem_lt hi
  · intro i hi
    exact suffixMap_getElem_ge hi
  · intro i q hq pr hpr
    rw [Option.mem_def] at hq hpr
    by_cases hik : i < fp - 1
    · rw [suffixMap_getElem_lt hik, hpr] at hq
      obtain rfl := Option.some.inj hq
      exact ⟨rfl, rfl, rfl, rfl, rfl⟩
    · rw [suffixMap_getElem_ge (by omega), hpr] at hq
      simp only [Option.map_some'] at hq
      obtain rfl := Option.some.inj hq
      exact ⟨rfl, rfl, rfl, rfl, rfl⟩
  · intro hlen
    exact suffixMap_eq_of_le (by omega)

theorem claim_C5_witness :
    ([exRec] : List PaymentRecord).length = ([exRec] : List PaymentRecord).length ∧
    (∀ i : ℕ, i < 1 - 1 →
      ([exRec] : List PaymentRecord)[i]? = ([exRec] : List PaymentRecord)[i]?) ∧
    (∀ i : ℕ, 1 - 1 ≤ i →
      ([exRec] : List PaymentRecord)[i]? =
        (([exRec] : List PaymentRecord)[i]?).map (rateUpdate 0)) ∧
    (∀ i : ℕ, ∀ q ∈ ([exRec] : List PaymentRecord)[i]?,
      ∀ pr ∈ ([exRec] : List PaymentRecord)[i]?,
      q.principal_payment = pr.principal_payment ∧
      q.remaining_principal = pr.remaining_principal ∧
      q.payment_date = pr.payment_date ∧
      q.period = pr.period ∧
      q.early_payment = pr.early_payment) ∧
    (([exRec] : List PaymentRecord).length < 1 → ([exRec] : List PaymentRecord) = [exRec]) :=
  claim_C5 (le_refl 1) exLoan_adjust

/-- **C6**.  An accepted shorten-term early payment (valid index, extra not
exceeding the balance) never lengthens the schedule, leaves no record with a
negative balance, truncates only by stopping at a record whose payment
exhausts the running balance exactly, and for an extra payment equal to the
full balance at the target period truncates the schedule to end at that
period with no residual balance. -/
theorem claim_C6 {l : Loan} {e : ℚ} {per : ℕ} {s : List PaymentRecord}
    {target : PaymentRecord} {l' : Loan} {s' : List PaymentRecord}
    (hdm : l.done_months + 1 ≤ per)
    (htar : s[per - l.done_months - 1]? = some target)
    (hpos : 0 ≤ round2 (target.remaining_principal - e))
    (hinv : SchedInv s)
    (h : l.make_early_payment e per true s = .ok (l', s')) :
    s'.length ≤ s.length ∧
    (∀ q ∈ s', 0 ≤ q.remaining_principal) ∧
    (s'.length < s.length → ∃ q, s'.getLast? = some q ∧
      q.remaining_principal - q.principal_payment = 0) ∧
    (e = target.remaining_principal →
      s'.length = per - l.done_months - 1 + 1 ∧
      ∃ q, s'.getLast? = some q ∧ q.remaining_principal = 0 ∧
        q.period = target.period) := by
  have hidx : per - l.done_months - 1 < s.length := by
    by_contra hle
    rw [List.getElem?_eq_none (by omega)] at htar
    exact Option.noConfusion htar
  rw [mep_shorten hdm htar hpos] at h
  injection RustResult.ok.inj h with h1 h2
  subst h2
  subst h1
  rw [set_take, set_drop _ hidx]
  have hlen_take : (s.take (per - l.done_months - 1)).length =
      per - l.done_months - 1 := by
    rw [List.length_take]
    omega
  have hlen_tail : ({ target with early_payment := some e }
      :: s.drop (per - l.done_months - 1 + 1)).length =
      s.length - (per - l.done_months - 1) := by
    simp only [List.length_cons, List.length_drop]
    omega
  have hpps : ∀ q ∈ ({ target with early_payment := some e }
      :: s.drop (per - l.done_months - 1 + 1)),
      0 ≤ q.principal_payment ∧ Cents q.principal_payment := by
    intro q hq
    rcases List.mem_cons.mp hq with hq | hq
    · subst hq
      exact ⟨(hinv.1 target (List.getElem?_mem htar)).2.2.1,
        (hinv.1 target (List.getElem?_mem htar)).2.2.2⟩
    · exact ⟨(hinv.1 q (List.drop_subset _ s hq)).2.2.1,
        (hinv.1 q (List.drop_subset _ s hq)).2.2.2⟩
  have hloop_len := shortenLoop_length_le
    ({ target with early_payment := some e }
      :: s.drop (per - l.done_months - 1 + 1))
    (round2 (target.remaining_principal - e))
  refine ⟨?_, ?_, ?_, ?_⟩
  · simp only [List.length_append, hlen_take]
    omega
  · intro q hq
    rcases List.mem_append.mp hq with hq | hq
    · exact (hinv.1 q (List.take_subset _ s hq)).1
    · exact (shortenLoop_inv _ _ hpos (cents_round2 _) hpps).1 q hq |>.1
  · intro hlt
    have hlt' : (shortenLoop (round2 (target.remaining_principal - e))
        ({ target with early_payment := some e }
          :: s.drop (per - l.done_months - 1 + 1))).length <
        ({ target with early_payment := some e }
          :: s.drop (per - l.done_months - 1 + 1)).length := by
      rw [hlen_tail]
      simp only [List.length_append, hlen_take] at hlt
      omega
    obtain ⟨q, hq, hqe⟩ := shortenLoop_truncated _ _ hlt'
    refine ⟨q, ?_, hqe⟩
    rw [List.getLast?_append, hq]
    rfl
  · intro heq
    have hnr0 : round2 (target.remaining_principal - e) = 0 := by
      rw [heq, sub_self, round2_zero]
    rw [hnr0]
    obtain ⟨q, hql, hq0, hqpp, hqper, hqearly⟩ := shortenLoop_zero
      ({ target with early_payment := some e })
      (s.drop (per - l.done_months - 1 + 1))
      ((hinv.1 target (List.getElem?_mem htar)).2.2.1)
    rw [hql]
    constructor
    · simp only [List.length_append, hlen_take, List.length_cons,
        List.length_nil]
    · refine ⟨q, ?_, hq0, hqper⟩
      rw [List.getLast?_append]
      rfl

theorem claim_C6_witness :
    ([exRecE0] : List PaymentRecord).length ≤ ([exRec] : List PaymentRecord).length ∧
    (∀ q ∈ ([exRecE0] : List PaymentRecord), 0 ≤ q.remaining_principal) ∧
    (([exRecE0] : List PaymentRecord).length < ([exRec] : List PaymentRecord).length →
      ∃ q, ([exRecE0] : List PaymentRecord).getLast? = some q ∧
        q.remaining_principal - q.principal_payment = 0) ∧
    ((0 : ℚ) = exRec.remaining_principal →
      ([exRecE0] : List PaymentRecord).length = 1 - exLoan.done_months - 1 + 1 ∧
      ∃ q, ([exRecE0] : List PaymentRecord).getLast? = some q ∧
        q.remaining_principal = 0 ∧ q.period = exRec.period) :=
  claim_C6 (by decide) rfl (by norm_num [exRec, round2, bankersRound])
    exRec_schedinv exLoan_mep_shorten

/-- **C7** (amended).  An accepted reduce-installment early payment (valid
index, extra not exceeding the balance, target period not beyond the term)
preserves the schedule length exactly and sets the loan's flat installment
to `round2(new_remaining / (total_periods - schedule[idx].period + 1))`.
The claim's additional "new flat ≤ old flat when the extra payment is
positive" is false on the code (see the counterexample) and is dropped. -/
theorem claim_C7 {l : Loan} {e : ℚ} {per : ℕ} {s : List PaymentRecord}
    {target : PaymentRecord} {l' : Loan} {s' : List PaymentRecord}
    (hdm : l.done_months + 1 ≤ per)
    (htar : s[per - l.done_months - 1]? = some target)
    (hpos : 0 ≤ round2 (target.remaining_principal - e))
    (hper : target.period ≤ l.months)
    (h : l.make_early_payment e per false s = .ok (l', s')) :
    s'.length = s.length ∧
    l'.monthly_principal_payment =
      round2 (round2 (target.remaining_principal - e)
        / ((l.months - target.period + 1 : ℕ) : ℚ)) := by
  have hidx : per - l.done_months - 1 < s.length := by
    by_contra hle
    rw [List.getElem?_eq_none (by omega)] at htar
    exact Option.noConfusion htar
  rw [mep_reduce hdm htar hpos hper] at h
  injection RustResult.ok.inj h with h1 h2
  subst h2
  constructor
  · rw [set_take, set_drop _ hidx]
    simp only [List.length_append, List.length_take, reduceLoop_length,
      List.length_cons, List.length_drop]
    omega
  · rw [← h1]

/-- **C7** counterexample: for `Loan::new(0.10, 0%, 0, 4, _)` (flat
installment `round2(0.025) = 0.02`), an accepted reduce-installment early
payment of `0.01` at the final period yields flat installment
`round2(round2(0.04 − 0.01) / 1) = 0.03 > 0.02`: a positive extra payment
*raised* the flat installment. -/
theorem claim_C7_counterexample :
    Loan.new (1/10) 0 0 4 exDate = .ok L4 ∧
    L4.generate_schedule = .ok [R4a, R4b, R4c, R4d] ∧
    (L4.make_early_payment (1/100) 4 false [R4a, R4b, R4c, R4d]).getOk?.map
      (fun st => st.1.monthly_principal_payment) = some (3/100) ∧
    (0 : ℚ) < 1/100 ∧
    ¬ ((3 : ℚ)/100 ≤ L4.monthly_principal_payment) :=
  ⟨L4_new, L4_gen, L4_mep_proj, by norm_num, by norm_num [L4]⟩

theorem claim_C7_witness :
    ([exRecE0] : List PaymentRecord).length = ([exRec] : List PaymentRecord).length ∧
    exLoan.monthly_principal_payment =
      round2 (round2 (exRec.remaining_principal - 0)
        / ((exLoan.months - exRec.period + 1 : ℕ) : ℚ)) :=
  claim_C7 (by decide) rfl (by norm_num [exRec, round2, bankersRound])
    (by decide) exLoan_mep_reduce

/-- **C8**.  `generate_schedule` returns exactly
`total_periods - elapsed_periods` records whose first record carries
`period = elapsed_periods + 1` and `remaining_principal = principal`; and
for the concrete loan (principal 536714.20, rate 4.2, elapsed 57, total
288, start 2024-10-19) it succeeds with 231 records, `record[0].period =
58` and `record[0].remaining_principal = 536714.20`. -/
theorem claim_C8 :
    (∀ (l : Loan) (s : List PaymentRecord), l.generate_schedule = .ok s →
      s.length = l.months - l.done_months ∧
      (l.done_months < l.months → ∃ q, s.head? = some q ∧
        q.period = l.done_months + 1 ∧ q.remaining_principal = l.principal)) ∧
    (∀ l : Loan, Loan.new (53671420/100) (42/10) 57 288 ⟨2024, 10, 19⟩ = .ok l →
      ∃ s, l.generate_schedule = .ok s ∧ s.length = 231 ∧
        ∃ q, s.head? = some q ∧ q.period = 58 ∧
          q.remaining_principal = 53671420/100) := by
  constructor
  · intro l s hgen
    obtain ⟨hba, hloop⟩ := generate_ok_inv hgen
    refine ⟨genLoop_length hloop, ?_⟩
    intro hlt
    obtain ⟨k, hk⟩ : ∃ k, l.months - l.done_months = k + 1 :=
      ⟨l.months - l.done_months - 1, by omega⟩
    rw [hk] at hloop
    obtain ⟨q, hq, hqper, hqrp⟩ := genLoop_head hloop
    refine ⟨q, hq, ?_, hqrp⟩
    rw [hqper, Nat.add_comm]
  · intro l hnew
    obtain ⟨hdm, hl⟩ := Loan.new_ok hnew
    have hmm : l.months = 288 := by rw [hl]
    have hdmm : l.done_months = 57 := by rw [hl]
    have hpr : l.principal = 53671420/100 := by rw [hl]
    have hsd : l.start_date = ⟨2024, 10, 19⟩ := by rw [hl]
    have hgd : goodDay l.start_date := by
      rw [hsd]
      decide
    have hgeq := generate_schedule_eq (l := l) (by omega)
    rw [hmm, hdmm] at hgeq
    norm_num at hgeq
    have hok : ∀ (n i : ℕ) (rp : ℚ), goodDay l.start_date →
        ∃ s, genLoop l (l.annual_rate / 12 / 100) l.monthly_principal_payment
          n i rp l.start_date = .ok s :=
      fun n i rp hd => genLoop_ok n i rp hd
    obtain ⟨s, hs⟩ := hok 231 1 l.principal hgd
    refine ⟨s, ?_, ?_, ?_⟩
    · rw [hgeq]
      exact hs
    · exact genLoop_length hs
    · rw [show (231 : ℕ) = 230 + 1 from rfl] at hs
      obtain ⟨q, hq, hqper, hqrp⟩ := genLoop_head hs
      refine ⟨q, hq, ?_, ?_⟩
      · rw [hqper, hdmm]
      · rw [hqrp, hpr]

theorem claim_C8_witness :
    ([exRec] : List PaymentRecord).length = exLoan.months - exLoan.done_months ∧
    (exLoan.done_months < exLoan.months →
      ∃ q, ([exRec] : List PaymentRecord).head? = some q ∧
        q.period = exLoan.done_months + 1 ∧
        q.remaining_principal = exLoan.principal) :=
  claim_C8.1 exLoan [exRec] exLoan_gen

/-- **C9**.  A rejected early-payment request — target index at or beyond
the schedule length, or `round2(balance - extra)` negative — returns
normally with the loan and every record of the schedule (early-payment
markers included) unchanged. -/
theorem claim_C9 {l : Loan} {e : ℚ} {per : ℕ} {b : Bool}
    {s : List PaymentRecord}
    (hdm : l.done_months + 1 ≤ per)
    (hrej : s.length ≤ per - l.done_months - 1 ∨
      ∃ target, s[per - l.done_months - 1]? = some target ∧
        round2 (target.remaining_principal - e) < 0) :
    l.make_early_payment e per b s = .ok (l, s) := by
  rcases hrej with hlen | ⟨target, htar, hneg⟩
  · exact mep_outOfRange hdm hlen
  · exact mep_exceed hdm htar hneg

theorem claim_C9_witness :
    exLoan.make_early_payment 5 2 true [exRec] = .ok (exLoan, [exRec]) :=
  claim_C9 (by decide) (Or.inl (by decide))

/-- **C10**.  For every 1-indexed `from_period ≥ 1` (the only well-defined
inputs: `from_period = 0` underflows), a returning `adjust_rate` always sets
the loan's `annual_rate` to the new rate — in particular also when
`from_period` exceeds the schedule length and the schedule itself is left
unchanged. -/
theorem claim_C10 {l : Loan} {nr : ℚ} {fp : ℕ} {s : List PaymentRecord}
    {l' : Loan} {s' : List PaymentRecord}
    (hfp : 1 ≤ fp)
    (h : l.adjust_rate nr fp s = .ok (l', s')) :
    l'.annual_rate = nr ∧ l' = { l with annual_rate := nr } ∧
      (s.length < fp → s' = s) := by
  rw [adjust_rate_ok hfp] at h
  injection RustResult.ok.inj h with h1 h2
  subst h2
  subst h1
  refine ⟨rfl, rfl, ?_⟩
  intro hlen
  exact suffixMap_eq_of_le (by omega)

theorem claim_C10_witness :
    exLoan7.annual_rate = 7 ∧ exLoan7 = { exLoan with annual_rate := 7 } ∧
      (([exRec] : List PaymentRecord).length < 5 → ([exRec] : List PaymentRecord) = [exRec]) :=
  claim_C10 (by omega) exLoan_adjust7

end EarlyPayment
